import Mathlib

/-!
# Verification of the invest-form math and pool-creation composables

Shallow embedding of two Vue composables of the repository:

* `useInvestFormMath` (reactive computed fields over a pool's token
  addresses and the user's input amount strings: `fullAmounts`,
  `fullAmountsScaled`, `batchSwapAmountMap`, `hasAmounts`, `priceImpact`,
  `maximized`, `bptOut`, the `maximizeAmounts` method and the
  `watch(fullAmounts)` handler), and
* `usePoolCreation` (the pool-creation wizard state record and its
  mutating methods `proceed`, `setStep`, `createPool`, `joinPool`).

JavaScript conventions used throughout the embedding:

* a JS number is modelled as `Option ℚ` (`none` is `NaN`);
* `BigNumber` values of the bignumber.js library (`bnum`) are exact
  decimals `Option (ℤ × ℕ)` — mantissa and scale, as bignumber.js itself
  stores them — with `none` for `NaN`;
* `BigNumber` values of the ethers library are exact integers `ℤ`;
* a possibly-missing array element (`xs[i]` past the end is `undefined`)
  is `Option` via `List.get?`;
* a call that can throw is `Option`-valued (`none` is the thrown case) or,
  where the thrown/NaN distinction matters, `Except Unit`-valued;
* services external to this repository (the pool calculator, the slippage
  composable, the token registry with `balanceFor` / token decimals) are
  parameters of the definitions, exactly as they are injected dependencies
  in the source.
-/

/-! ## JS strings and numbers -/

/-- A JS number: `none` models `NaN`. -/
abbrev JsNum := Option ℚ

/-- Decimal digit test. -/
def isDigitCh (c : Char) : Bool := '0' ≤ c && c ≤ '9'

/-- Numeric value of a digit list, most significant first; `[]` gives `0`. -/
def digitsToNat (cs : List Char) : ℕ :=
  cs.foldl (fun acc c => 10 * acc + (c.toNat - '0'.toNat)) 0

/-- ASCII lower-casing of one character (the fragment of JS
`toLowerCase()` relevant to hex addresses). -/
def lowerChar (c : Char) : Char :=
  if 'A' ≤ c && c ≤ 'Z' then Char.ofNat (c.toNat + 32) else c

/-- JS `toLowerCase()` on a string, character by character. -/
def toLowerStr (s : String) : String :=
  String.mk (s.data.map lowerChar)

/-- A bignumber.js `BigNumber`: `none` is `NaN`; `some (m, e)` is the
exact decimal `m / 10 ^ e` (bignumber.js itself stores sign, decimal
digits and an exponent, i.e. exactly such a pair). -/
abbrev BigNum := Option (ℤ × ℕ)

/-- The exact rational value of a (non-`NaN`) `BigNum`. -/
def bnVal (p : ℤ × ℕ) : ℚ := (p.1 : ℚ) / (10 : ℚ) ^ p.2

/-- The rational value of a `BigNum`, `none` for `NaN`. -/
def bnRat (a : BigNum) : Option ℚ := a.map bnVal

/-- Normalization of a decimal pair: drop factors of ten shared by the
mantissa and the scale (bignumber.js keeps digit arrays without trailing
zeros, so its values are always in this form). -/
def stripZeros : ℤ → ℕ → ℤ × ℕ
  | m, 0 => (m, 0)
  | m, e + 1 => if m % 10 = 0 then stripZeros (m / 10) e else (m, e + 1)

/-- Mantissa parser for bignumber.js: digit characters with at most one
decimal point and at least one digit.  Returns the digit value (whole and
fraction digits read as one number) and the fraction length. -/
def parseMantissa (cs : List Char) : Option (ℕ × ℕ) :=
  if cs.any isDigitCh && cs.all (fun c => isDigitCh c || c = '.') &&
      cs.count '.' ≤ 1 then
    let whole := cs.takeWhile (fun c => c ≠ '.')
    let frac := (cs.dropWhile (fun c => c ≠ '.')).drop 1
    some (digitsToNat (whole ++ frac), frac.length)
  else
    none

/-- Exponent suffix parser for bignumber.js: `e`/`E`, an optional sign and
at least one digit.  `none` for an invalid suffix, `some k` for `10 ^ k`. -/
def parseExponent (cs : List Char) : Option ℤ :=
  match cs with
  | [] => some 0
  | e :: rest =>
    if e = 'e' || e = 'E' then
      let (sign, ds) : ℤ × List Char :=
        match rest with
        | '-' :: ds => (-1, ds)
        | '+' :: ds => (1, ds)
        | ds => (1, ds)
      if ds ≠ [] && ds.all isDigitCh then some (sign * digitsToNat ds) else none
    else
      none

/-- `bnum`: construction of a bignumber.js `BigNumber` from a decimal
string (`@/lib/utils`, a repository module outside `src/`, wraps the
bignumber.js constructor directly).  An optional sign, then a decimal
mantissa, then an optional exponent part; anything else is `NaN` (`none`).
The special forms `Infinity`, hex/octal/binary prefixes are not produced
by this front-end and are left out. -/
def bnum (s : String) : BigNum :=
  let cs := s.data
  let (neg, cs) : Bool × List Char :=
    match cs with
    | '-' :: rest => (true, rest)
    | '+' :: rest => (false, rest)
    | rest => (false, rest)
  let mant := cs.takeWhile (fun c => c ≠ 'e' && c ≠ 'E')
  let expPart := cs.dropWhile (fun c => c ≠ 'e' && c ≠ 'E')
  match parseMantissa mant, parseExponent expPart with
  | some (d, fracLen), some k =>
    let m : ℤ := if neg then -(d : ℤ) else (d : ℤ)
    let sc : ℤ := (fracLen : ℤ) - k
    if sc ≤ 0 then some (m * 10 ^ (-sc).toNat, 0) else some (stripZeros m sc.toNat)
  | _, _ => none

/-- bignumber.js `gt` on exact decimals (cross multiplication);
comparisons with `NaN` are false. -/
def bnGt (a b : BigNum) : Bool :=
  match a, b with
  | some (m1, e1), some (m2, e2) => decide (m2 * 10 ^ e1 < m1 * 10 ^ e2)
  | _, _ => false

/-- bignumber.js `minus`: exact decimal subtraction; `NaN` propagates. -/
def bnMinus (a b : BigNum) : BigNum := do
  let (m1, e1) ← a
  let (m2, e2) ← b
  pure (stripZeros (m1 * 10 ^ e2 - m2 * 10 ^ e1) (e1 + e2))

/-- bignumber.js `toString` for the plain decimal range: sign, the decimal
digits of the mantissa with a point inserted `e` places from the right;
`NaN` prints as the string `NaN`. -/
def bnToString (v : BigNum) : String :=
  match v with
  | none => "NaN"
  | some (m, e) =>
    let sign := if m < 0 then "-" else ""
    let ds := Nat.toDigits 10 m.natAbs
    if e = 0 then
      sign ++ String.mk ds
    else
      let ds := List.replicate (e + 1 - ds.length) '0' ++ ds
      sign ++ String.mk (ds.take (ds.length - e)) ++ "." ++
        String.mk (ds.drop (ds.length - e))

/-! ## useInvestFormMath: fullAmounts (claim C7) -/

/-- `fullAmounts`: one amount string per pool token; the input `amounts`
entry when it is present and truthy (a non-empty string), `'0'` otherwise
(`new Array(tokenCount).fill('0').map((_, i) => amounts.value[i] || '0')`). -/
def fullAmounts (tokenAddresses amounts : List String) : List String :=
  (List.range tokenAddresses.length).map (fun i =>
    match amounts.get? i with
    | some a => if a = "" then "0" else a
    | none => "0")

theorem fullAmounts_length (tokenAddresses amounts : List String) :
    (fullAmounts tokenAddresses amounts).length = tokenAddresses.length := by
  simp [fullAmounts]

theorem fullAmounts_get (tokenAddresses amounts : List String) (i : ℕ)
    (h : i < tokenAddresses.length) :
    (fullAmounts tokenAddresses amounts).get? i =
      some (match amounts.get? i with
            | some a => if a = "" then "0" else a
            | none => "0") := by
  simp [fullAmounts, List.get?_eq_getElem?, List.getElem?_map, List.getElem?_range, h]

/-- Claim C7: `fullAmounts` has one entry per token address; the `i`-th
entry is `amounts[i]` when that entry exists and is non-empty and `'0'`
otherwise; in particular every index below the token count is defined. -/
theorem C7_fullAmounts_total (tokenAddresses amounts : List String) (i : ℕ)
    (h : i < tokenAddresses.length) :
    (fullAmounts tokenAddresses amounts).length = tokenAddresses.length ∧
    ((i < amounts.length ∧ amounts.getD i "" ≠ "" →
        (fullAmounts tokenAddresses amounts).get? i = some (amounts.getD i "")) ∧
      (¬ (i < amounts.length ∧ amounts.getD i "" ≠ "") →
        (fullAmounts tokenAddresses amounts).get? i = some "0")) ∧
    (fullAmounts tokenAddresses amounts).get? i ≠ none := by
  refine ⟨fullAmounts_length _ _, ⟨?_, ?_⟩, ?_⟩
  · rintro ⟨hi, hne⟩
    rw [fullAmounts_get _ _ _ h]
    have : amounts.get? i = some (amounts.getD i "") := by
      rw [List.getD_eq_getElem?_getD, List.get?_eq_getElem?]
      cases hx : amounts[i]? with
      | none => exact absurd (List.getElem?_eq_none_iff.mp hx) (by omega)
      | some a => simp
    rw [this]
    show some (if amounts.getD i "" = "" then "0" else amounts.getD i "") =
      some (amounts.getD i "")
    rw [if_neg hne]
  · intro hnot
    rw [fullAmounts_get _ _ _ h]
    by_cases hi : i < amounts.length
    · have hempty : amounts.getD i "" = "" := by
        by_contra hne
        exact hnot ⟨hi, hne⟩
      have : amounts.get? i = some (amounts.getD i "") := by
        rw [List.getD_eq_getElem?_getD, List.get?_eq_getElem?]
        cases hx : amounts[i]? with
        | none => exact absurd (List.getElem?_eq_none_iff.mp hx) (by omega)
        | some a => simp
      rw [this, hempty]
      simp
    · have : amounts.get? i = none := by
        rw [List.get?_eq_getElem?]
        exact List.getElem?_eq_none_iff.mpr (by omega)
      rw [this]
  · rw [fullAmounts_get _ _ _ h]
    simp

/-- Witness for C7 at a concrete state: three tokens, a short amounts list
with an empty entry. -/
theorem C7_fullAmounts_total_witness :
    (fullAmounts ["0xa", "0xb", "0xc"] ["1.5", ""]).length = 3 ∧
    ((1 < 2 ∧ ["1.5", ""].getD 1 "" ≠ "" →
        (fullAmounts ["0xa", "0xb", "0xc"] ["1.5", ""]).get? 1 =
          some (["1.5", ""].getD 1 "")) ∧
      (¬ (1 < 2 ∧ ["1.5", ""].getD 1 "" ≠ "") →
        (fullAmounts ["0xa", "0xb", "0xc"] ["1.5", ""]).get? 1 = some "0")) ∧
    (fullAmounts ["0xa", "0xb", "0xc"] ["1.5", ""]).get? 1 ≠ none := by
  have h := C7_fullAmounts_total ["0xa", "0xb", "0xc"] ["1.5", ""] 1 (by decide)
  simpa using h

/-! ## usePoolCreation: wizard state (claims C3, C6, C8, C10) -/

/-- A token row of the pool-creation wizard (`TokenWeight` in the source;
JS `number` fields become `ℚ`). -/
structure TokenWeight where
  tokenAddress : String
  weight : ℚ
  isLocked : Bool
  amount : ℚ
  id : ℕ
deriving DecidableEq

/-- The reactive `poolCreationState` record.  The two status fields are
strings at runtime (their TS literal-union types `CreateState` and
`JoinState` are erased), so they are modelled as `String` and the declared
unions as value lists below. -/
structure PoolCreationState where
  name : String
  tokenWeights : List TokenWeight
  activeStep : ℕ
  initialFee : String
  isFeeGovManaged : Bool
  feeManagementType : String
  feeType : String
  feeController : String
  thirdPartyFeeController : String
  fee : String
  tokensList : List String
  poolId : String
  poolAddress : String
  createState : String
  joinState : String
deriving DecidableEq

/-- The values of the TS union type `CreateState`. -/
def createStateValues : List String := ["none", "creating", "created", "failed"]

/-- The values of the TS union type `JoinState`. -/
def joinStateValues : List String := ["non", "joining", "joined", "failed"]

/-- The initial `poolCreationState` object literal of the source. -/
def initialPoolCreationState : PoolCreationState :=
  { name := "MyPool"
    tokenWeights := []
    activeStep := 0
    initialFee := "0"
    isFeeGovManaged := false
    feeManagementType := "governance"
    feeType := "fixed"
    feeController := "self"
    thirdPartyFeeController := ""
    fee := "0"
    tokensList := []
    poolId := ""
    poolAddress := ""
    createState := "none"
    joinState := "none" }

/-- `proceed`: `poolCreationState.activeStep += 1`. -/
def proceed (s : PoolCreationState) : PoolCreationState :=
  { s with activeStep := s.activeStep + 1 }

/-- `setStep`: the body is `poolCreationState.activeStep = 0`, whatever
the `step` argument. -/
def setStep (step : ℤ) (s : PoolCreationState) : PoolCreationState :=
  { s with activeStep := 0 }

/-- `sortTokenWeights`: sorts the rows in place by ascending token
address (the JS comparator returns `1` exactly when
`tokenA.tokenAddress > tokenB.tokenAddress`, else `-1`). -/
def sortTokenWeights (ws : List TokenWeight) : List TokenWeight :=
  ws.mergeSort (fun tokenA tokenB => tokenA.tokenAddress ≤ tokenB.tokenAddress)

/-- The pool details fetched by `balancerService.pools.weighted.details`
after a confirmed creation transaction. -/
structure PoolDetails where
  id : String
  address : String

/-- Outcome of the `createPool` async flow, from the point where the
provider has been obtained: the transaction construction/submission call
throws, or it is submitted and the listener later reports the transaction
confirmed (with the fetched pool details) or failed. -/
inductive CreateFlow where
  | throws : CreateFlow
  | confirmed : PoolDetails → CreateFlow
  | txFailed : CreateFlow

/-- Outcome of the `joinPool` async flow, analogously. -/
inductive JoinFlow where
  | throws : JoinFlow
  | confirmed : JoinFlow
  | txFailed : JoinFlow

/-- `createPool`: first `sortTokenWeights()`; inside the `try`,
`createState` becomes `'creating'` before the transaction is built and
submitted.  The pair is (state right after submission starts, state after
the flow settles): a throw in construction/submission is caught and sets
`'failed'`; `onTxConfirmed` stores the fetched `poolId` and `poolAddress`
and sets `'created'`; `onTxFailed` sets `'failed'`. -/
def createPoolRun (s : PoolCreationState) (flow : CreateFlow) :
    PoolCreationState × PoolCreationState :=
  let s1 := { s with tokenWeights := sortTokenWeights s.tokenWeights }
  let pending := { s1 with createState := "creating" }
  match flow with
  | CreateFlow.throws => (pending, { pending with createState := "failed" })
  | CreateFlow.confirmed d =>
    (pending,
      { pending with
        poolId := d.id
        poolAddress := d.address
        createState := "created" })
  | CreateFlow.txFailed => (pending, { pending with createState := "failed" })

/-- `joinPool`: same shape with `joinState`; the confirmed branch only
sets `'joined'`. -/
def joinPoolRun (s : PoolCreationState) (flow : JoinFlow) :
    PoolCreationState × PoolCreationState :=
  let s1 := { s with tokenWeights := sortTokenWeights s.tokenWeights }
  let pending := { s1 with joinState := "joining" }
  match flow with
  | JoinFlow.throws => (pending, { pending with joinState := "failed" })
  | JoinFlow.confirmed => (pending, { pending with joinState := "joined" })
  | JoinFlow.txFailed => (pending, { pending with joinState := "failed" })

/-- Claim C3: `createPool`/`joinPool` set `'creating'`/`'joining'` before
submitting; a confirmed transaction yields `'created'`/`'joined'` (and, for
creation, records `poolId` and `poolAddress` from the fetched details); a
failed transaction or a throw during construction/submission yields
`'failed'`. -/
theorem C3_create_join_state_machine (s : PoolCreationState) :
    (∀ flow, (createPoolRun s flow).1.createState = "creating") ∧
    (∀ d, (createPoolRun s (CreateFlow.confirmed d)).2.createState = "created" ∧
      (createPoolRun s (CreateFlow.confirmed d)).2.poolId = d.id ∧
      (createPoolRun s (CreateFlow.confirmed d)).2.poolAddress = d.address) ∧
    (createPoolRun s CreateFlow.throws).2.createState = "failed" ∧
    (createPoolRun s CreateFlow.txFailed).2.createState = "failed" ∧
    (∀ flow, (joinPoolRun s flow).1.joinState = "joining") ∧
    (joinPoolRun s JoinFlow.confirmed).2.joinState = "joined" ∧
    (joinPoolRun s JoinFlow.throws).2.joinState = "failed" ∧
    (joinPoolRun s JoinFlow.txFailed).2.joinState = "failed" := by
  refine ⟨fun flow => ?_, fun d => ⟨rfl, rfl, rfl⟩, rfl, rfl, fun flow => ?_, rfl, rfl, rfl⟩
  · cases flow <;> rfl
  · cases flow <;> rfl

/-- Claim C6: `proceed` increments `activeStep` by exactly one and leaves
every other field of the pool-creation state unchanged. -/
theorem C6_proceed_frame (s : PoolCreationState) :
    (proceed s).activeStep = s.activeStep + 1 ∧
    (proceed s).name = s.name ∧
    (proceed s).tokenWeights = s.tokenWeights ∧
    (proceed s).initialFee = s.initialFee ∧
    (proceed s).isFeeGovManaged = s.isFeeGovManaged ∧
    (proceed s).feeManagementType = s.feeManagementType ∧
    (proceed s).feeType = s.feeType ∧
    (proceed s).feeController = s.feeController ∧
    (proceed s).thirdPartyFeeController = s.thirdPartyFeeController ∧
    (proceed s).fee = s.fee ∧
    (proceed s).tokensList = s.tokensList ∧
    (proceed s).poolId = s.poolId ∧
    (proceed s).poolAddress = s.poolAddress ∧
    (proceed s).createState = s.createState ∧
    (proceed s).joinState = s.joinState :=
  ⟨rfl, rfl, rfl, rfl, rfl, rfl, rfl, rfl, rfl, rfl, rfl, rfl, rfl, rfl, rfl⟩

/-- Claim C8: `setStep n` sets `activeStep` to `0` for every argument `n`
and leaves every other field unchanged. -/
theorem C8_setStep_ignores_argument (n : ℤ) (s : PoolCreationState) :
    (setStep n s).activeStep = 0 ∧
    (setStep n s).name = s.name ∧
    (setStep n s).tokenWeights = s.tokenWeights ∧
    (setStep n s).initialFee = s.initialFee ∧
    (setStep n s).isFeeGovManaged = s.isFeeGovManaged ∧
    (setStep n s).feeManagementType = s.feeManagementType ∧
    (setStep n s).feeType = s.feeType ∧
    (setStep n s).feeController = s.feeController ∧
    (setStep n s).thirdPartyFeeController = s.thirdPartyFeeController ∧
    (setStep n s).fee = s.fee ∧
    (setStep n s).tokensList = s.tokensList ∧
    (setStep n s).poolId = s.poolId ∧
    (setStep n s).poolAddress = s.poolAddress ∧
    (setStep n s).createState = s.createState ∧
    (setStep n s).joinState = s.joinState :=
  ⟨rfl, rfl, rfl, rfl, rfl, rfl, rfl, rfl, rfl, rfl, rfl, rfl, rfl, rfl, rfl⟩

/-- Claim C10 fails on the code: the initial state's `joinState` is the
string `'none'`, which is not one of the four values `'non'`, `'joining'`,
`'joined'`, `'failed'` declared by the `JoinState` type (the initializer
`'none' as JoinState` forces the mismatched literal through).  All later
writes (`'joining'`, `'joined'`, `'failed'` in `joinPool`) are valid, so
the violation is exactly the initial state. -/
theorem C10_initial_joinState_outside_type :
    initialPoolCreationState.joinState = "none" ∧
    initialPoolCreationState.joinState ∉ joinStateValues ∧
    (∀ flow, (joinPoolRun initialPoolCreationState flow).2.joinState ∈ joinStateValues) := by
  refine ⟨rfl, by decide, fun flow => ?_⟩
  cases flow <;> decide

/-! ## useInvestFormMath: hasAmounts and priceImpact (claim C1) -/

/-- `hasAmounts`: some full amount is strictly positive
(`fullAmounts.value.some(amount => bnum(amount).gt(0))`). -/
def hasAmounts (tokenAddresses amounts : List String) : Bool :=
  (fullAmounts tokenAddresses amounts).any (fun amount => bnGt (bnum amount) (some (0, 0)))

/-- The JS expression `r || 0` on a number `r`: the falsy numbers `0` and
`NaN` become `0`, everything else passes through. -/
def jsOrZero (r : JsNum) : ℚ :=
  match r with
  | none => 0
  | some q => if q = 0 then 0 else q

/-- The `priceImpact` computed field.  The external calculator call
`poolCalculator.priceImpact(...)` followed by `.toNumber()` is the
parameter `calcPriceImpact` (`Except.error` is a throw, the payload is the
JS number produced by `.toNumber()`). -/
def priceImpact (calcPriceImpact : List String → Except Unit JsNum)
    (tokenAddresses amounts : List String) : ℚ :=
  if hasAmounts tokenAddresses amounts = false then 0
  else
    match calcPriceImpact (fullAmounts tokenAddresses amounts) with
    | Except.error _ => 100
    | Except.ok r => jsOrZero r

/-- The value claim C1 says `priceImpact` delegates to when it does not
short-circuit: `calcPriceImpact(fullAmounts).toNumber() || 0`, and `100`
when the calculator throws. -/
def priceImpactDelegate (calcPriceImpact : List String → Except Unit JsNum)
    (fullAmts : List String) : ℚ :=
  match calcPriceImpact fullAmts with
  | Except.error _ => 100
  | Except.ok r => jsOrZero r

/-- A concrete calculator used to separate the claim from the code: it
always returns the number `1` without throwing. -/
def constOneCalc : List String → Except Unit JsNum := fun _ => Except.ok (some 1)

/-- Claim C1 as stated is false: with the single input amount `"-1"` not
every entry of `fullAmounts` is zero, so the claim requires `priceImpact`
to equal the delegated calculator value (`1` for `constOneCalc`), but the
code's guard is `!hasAmounts` — no entry is strictly *positive* — so the
code returns `0` without calling the calculator. -/
theorem C1_counterexample :
    ¬ (∀ s ∈ fullAmounts ["0xa"] ["-1"], bnRat (bnum s) = some 0) ∧
    priceImpact constOneCalc ["0xa"] ["-1"] ≠
      priceImpactDelegate constOneCalc (fullAmounts ["0xa"] ["-1"]) := by
  constructor
  · intro hall
    have h := hall "-1" (by decide)
    have hb : bnum "-1" = some (-1, 0) := by decide
    rw [hb] at h
    simp only [bnRat, Option.map_some, Option.some_inj] at h
    exact absurd h (by norm_num [bnVal])
  · have hz : hasAmounts ["0xa"] ["-1"] = false := by decide
    simp only [priceImpact, priceImpactDelegate, hz, constOneCalc, if_true]
    norm_num [jsOrZero]

/-- Claim C1 amended: `priceImpact` is `0` when no entry of `fullAmounts`
is strictly greater than zero under `bnum` parsing (rather than: when
every entry is zero); otherwise it is the delegated calculator value with
`0` substituted for a falsy result and `100` when the calculator throws. -/
theorem C1_priceImpact_delegation (calcPriceImpact : List String → Except Unit JsNum)
    (tokenAddresses amounts : List String) :
    ((∀ s ∈ fullAmounts tokenAddresses amounts, bnGt (bnum s) (some (0, 0)) = false) →
      priceImpact calcPriceImpact tokenAddresses amounts = 0) ∧
    ((∃ s ∈ fullAmounts tokenAddresses amounts, bnGt (bnum s) (some (0, 0)) = true) →
      priceImpact calcPriceImpact tokenAddresses amounts =
        priceImpactDelegate calcPriceImpact (fullAmounts tokenAddresses amounts)) := by
  constructor
  · intro hall
    have h : hasAmounts tokenAddresses amounts = false := by
      simp only [hasAmounts, List.any_eq_false]
      intro a ha
      simpa using hall a ha
    simp [priceImpact, h]
  · rintro ⟨s, hs, hgt⟩
    have h : hasAmounts tokenAddresses amounts = true :=
      List.any_eq_true.mpr ⟨s, hs, hgt⟩
    simp only [priceImpact, priceImpactDelegate, h]
    rfl

/-- Witness for the amended C1 at a concrete positive amount. -/
theorem C1_priceImpact_delegation_witness :
    priceImpact constOneCalc ["0xa"] ["2"] =
      priceImpactDelegate constOneCalc (fullAmounts ["0xa"] ["2"]) :=
  (C1_priceImpact_delegation constOneCalc ["0xa"] ["2"]).2 ⟨"2", by decide, by decide⟩

/-! ## useInvestFormMath: bptOut (claim C2) -/

/-- The batch-swap result returned by the smart-order-router's
`queryBatchSwapTokensIn`; the computed fields only read `amountTokenOut`.
In the source it is a decimal integer string fed to `BigNumber.from`; it
is modelled already parsed to `ℤ` (the `swaps` routing steps are opaque
external data and are not modelled). -/
structure BatchSwap where
  amountTokenOut : ℤ
  assets : List String

/-- The `bptOut` computed field.  `minusSlippageScaled` (the `useSlippage`
composable) and `exactTokensInForBPTOut` (the external calculator, whose
`BigNumber` result passes through `.toString()` and `BigNumber.from`) are
parameters; `.abs()` is `Int.natAbs` cast back to `ℤ`. -/
def bptOut (minusSlippageScaled : ℤ → ℤ) (exactTokensInForBPTOut : List String → ℤ)
    (managedPoolWithTradingHalted : Bool) (batchSwap : Option BatchSwap)
    (tokenAddresses amounts : List String) : String :=
  let bo : ℤ :=
    match batchSwap with
    | some bs => (bs.amountTokenOut.natAbs : ℤ)
    | none => exactTokensInForBPTOut (fullAmounts tokenAddresses amounts)
  if managedPoolWithTradingHalted then toString bo
  else toString (minusSlippageScaled bo)

/-- Claim C2: `bptOut` is the absolute value of `batchSwap.amountTokenOut`
when a batch-swap result is present and the calculator's
`exactTokensInForBPTOut(fullAmounts)` otherwise; slippage is subtracted
via `minusSlippageScaled` except for a managed pool with trading halted,
which gets the raw value. -/
theorem C2_bptOut_delegation (minusSlippageScaled : ℤ → ℤ)
    (exactTokensInForBPTOut : List String → ℤ) (halted : Bool)
    (batchSwap : Option BatchSwap) (tokenAddresses amounts : List String) :
    (∀ b, batchSwap = some b →
      bptOut minusSlippageScaled exactTokensInForBPTOut halted batchSwap
          tokenAddresses amounts =
        if halted then toString (b.amountTokenOut.natAbs : ℤ)
        else toString (minusSlippageScaled (b.amountTokenOut.natAbs : ℤ))) ∧
    (batchSwap = none →
      bptOut minusSlippageScaled exactTokensInForBPTOut halted batchSwap
          tokenAddresses amounts =
        if halted then
          toString (exactTokensInForBPTOut (fullAmounts tokenAddresses amounts))
        else
          toString (minusSlippageScaled
            (exactTokensInForBPTOut (fullAmounts tokenAddresses amounts)))) := by
  constructor
  · rintro b rfl
    cases halted <;> rfl
  · rintro rfl
    cases halted <;> rfl

/-- Witness for C2 at a concrete batch-swap result. -/
theorem C2_bptOut_delegation_witness :
    bptOut (fun z => z - 1) (fun _ => 7) false (some ⟨-5, ["0xa"]⟩) ["0xa"] ["1"] = "4" := by
  have h := (C2_bptOut_delegation (fun z => z - 1) (fun _ => 7) false
    (some ⟨-5, ["0xa"]⟩) ["0xa"] ["1"]).1 ⟨-5, ["0xa"]⟩ rfl
  rw [h]
  rfl

/-! ## useInvestFormMath: the watch(fullAmounts) handler (claim C4) -/

/-- The result record of the external calculator's `propAmountsGiven`. -/
structure PropAmounts where
  send : List String
  receive : List String

/-- `newAmounts.findIndex((amount, i) => oldAmounts[i] !== amount)`,
walking the new list from position `k`: the first position whose old entry
(`undefined` past the end of the old list) differs from the new one. -/
def changedIndexAux (oldAmounts : List String) : List String → ℕ → Option ℕ
  | [], _ => none
  | amount :: rest, i =>
    if oldAmounts.get? i ≠ some amount then some i
    else changedIndexAux oldAmounts rest (i + 1)

/-- The `changedIndex` of the `watch(fullAmounts)` handler. -/
def changedIndex (newAmounts oldAmounts : List String) : Option ℕ :=
  changedIndexAux oldAmounts newAmounts 0

/-- Effect of the `watch(fullAmounts)` handler on `proportionalAmounts`:
when some index changed, the `send` list of
`poolCalculator.propAmountsGiven(fullAmounts.value[changedIndex],
changedIndex, 'send')` replaces it (the watched new value *is*
`fullAmounts.value`); with no changed index it is left alone. -/
def onFullAmountsChange (propAmountsGiven : String → ℕ → PropAmounts)
    (newAmounts oldAmounts proportionalAmounts : List String) : List String :=
  match changedIndex newAmounts oldAmounts with
  | some i => (propAmountsGiven (newAmounts.getD i "") i).send
  | none => proportionalAmounts

theorem changedIndexAux_eq_none (oldAmounts : List String) :
    ∀ (l : List String) (k : ℕ),
      (∀ i, i < l.length → oldAmounts.get? (k + i) = l.get? i) →
      changedIndexAux oldAmounts l k = none
  | [], _, _ => rfl
  | a :: rest, k, h => by
    have h0 := h 0 (by simp)
    simp only [Nat.add_zero, List.get?_eq_getElem?, List.getElem?_cons_zero] at h0
    unfold changedIndexAux
    rw [if_neg (by simp [List.get?_eq_getElem?, h0])]
    apply changedIndexAux_eq_none
    intro i hi
    have hx := h (i + 1) (by simpa using Nat.succ_lt_succ hi)
    have harith : k + (i + 1) = (k + 1) + i := by omega
    rw [harith] at hx
    simpa using hx

theorem changedIndexAux_eq_first (oldAmounts : List String) :
    ∀ (l : List String) (k j : ℕ), j < l.length →
      oldAmounts.get? (k + j) ≠ l.get? j →
      (∀ i, i < j → oldAmounts.get? (k + i) = l.get? i) →
      changedIndexAux oldAmounts l k = some (k + j)
  | [], _, j, hj, _, _ => by simp at hj
  | a :: rest, k, 0, _, hne, _ => by
    simp only [Nat.add_zero, List.get?_eq_getElem?, List.getElem?_cons_zero] at hne
    unfold changedIndexAux
    rw [if_pos (by simpa [List.get?_eq_getElem?] using hne), Nat.add_zero]
  | a :: rest, k, j + 1, hj, hne, hmin => by
    have h0 := hmin 0 (Nat.succ_pos j)
    simp only [Nat.add_zero, List.get?_eq_getElem?, List.getElem?_cons_zero] at h0
    unfold changedIndexAux
    rw [if_neg (by simp [List.get?_eq_getElem?, h0])]
    have harith : k + (j + 1) = (k + 1) + j := by omega
    have hne' : oldAmounts.get? ((k + 1) + j) ≠ rest.get? j := by
      rw [← harith]
      simpa using hne
    have hmin' : ∀ i, i < j → oldAmounts.get? ((k + 1) + i) = rest.get? i := by
      intro i hi
      have hx := hmin (i + 1) (Nat.succ_lt_succ hi)
      have : k + (i + 1) = (k + 1) + i := by omega
      rw [this] at hx
      simpa using hx
    have := changedIndexAux_eq_first oldAmounts rest (k + 1) j
      (by simpa using hj) hne' hmin'
    rw [this, harith]

/-- Claim C4: when the watched `fullAmounts` value changes at some index,
`proportionalAmounts` is replaced by the `send` amounts of the external
calculator's `propAmountsGiven` applied at the first index whose value
changed; when no index changed, it is left unchanged. -/
theorem C4_proportionalAmounts_update (propAmountsGiven : String → ℕ → PropAmounts)
    (newAmounts oldAmounts proportionalAmounts : List String) :
    ((∀ i, i < newAmounts.length → oldAmounts.get? i = newAmounts.get? i) →
      onFullAmountsChange propAmountsGiven newAmounts oldAmounts proportionalAmounts =
        proportionalAmounts) ∧
    (∀ j, j < newAmounts.length →
      oldAmounts.get? j ≠ newAmounts.get? j →
      (∀ i, i < j → oldAmounts.get? i = newAmounts.get? i) →
      onFullAmountsChange propAmountsGiven newAmounts oldAmounts proportionalAmounts =
        (propAmountsGiven (newAmounts.getD j "") j).send) := by
  constructor
  · intro h
    unfold onFullAmountsChange changedIndex
    rw [changedIndexAux_eq_none oldAmounts newAmounts 0 (by simpa using h)]
  · intro j hj hne hmin
    unfold onFullAmountsChange changedIndex
    rw [changedIndexAux_eq_first oldAmounts newAmounts 0 j hj
      (by simpa using hne) (by simpa using hmin)]
    simp

/-- A concrete `propAmountsGiven` used by the C4 witness. -/
def echoPropCalc : String → ℕ → PropAmounts := fun a _ => ⟨[a, a], [a]⟩

/-- Witness for C4: the second entry changed, the first did not. -/
theorem C4_proportionalAmounts_update_witness :
    onFullAmountsChange echoPropCalc ["1", "2"] ["1", "0"] ["p"] = ["2", "2"] := by
  have h := (C4_proportionalAmounts_update echoPropCalc ["1", "2"] ["1", "0"] ["p"]).2
    1 (by decide) (by decide)
    (by
      intro i hi
      have hz : i = 0 := by omega
      subst hz
      rfl)
  rw [h]
  rfl

/-! ## useInvestFormMath: fullAmountsScaled and batchSwapAmountMap (claim C5) -/

/-- ethers `parseUnits(value, decimals)` (`parseFixed`): the value must
match `-?[0-9.]+` with at most one point and must not be a bare `.`; the
fractional part must not exceed `decimals` digits; the result is the
integer amount in base units.  `none` models a throw. -/
def parseUnits (value : String) (decimals : ℕ) : Option ℤ :=
  let (neg, cs) : Bool × List Char :=
    match value.data with
    | '-' :: rest => (true, rest)
    | rest => (false, rest)
  if cs ≠ [] && cs ≠ ['.'] && cs.all (fun c => isDigitCh c || c = '.') &&
      cs.count '.' ≤ 1 then
    let whole := cs.takeWhile (fun c => c ≠ '.')
    let frac := (cs.dropWhile (fun c => c ≠ '.')).drop 1
    if frac.length ≤ decimals then
      let wei : ℤ :=
        digitsToNat whole * 10 ^ decimals + digitsToNat frac * 10 ^ (decimals - frac.length)
      some (if neg then -wei else wei)
    else
      none
  else
    none

/-- `fullAmountsScaled`: every full amount scaled by its token's decimals
(`fullAmounts.value.map((amount, i) => parseUnits(amount,
poolTokens.value[i].decimals))`); the token registry's decimals lookup is
the parameter `decimalsOf`.  `none` models a throw of any `parseUnits`
call. -/
def fullAmountsScaled (decimalsOf : String → ℕ) (tokenAddresses amounts : List String) :
    Option (List ℤ) :=
  (List.range tokenAddresses.length).mapM (fun i =>
    parseUnits ((fullAmounts tokenAddresses amounts).getD i "")
      (decimalsOf (tokenAddresses.getD i "")))

/-- The `batchSwapAmountMap` computed field as the entry list handed to
`Object.fromEntries`: every `[address.toLowerCase(), scaledAmount]` pair,
filtered to the strictly positive amounts. -/
def batchSwapAmountMap (decimalsOf : String → ℕ) (tokenAddresses amounts : List String) :
    Option (List (String × ℤ)) :=
  match fullAmountsScaled decimalsOf tokenAddresses amounts with
  | none => none
  | some scaled =>
    let allTokensWithAmounts := (List.range tokenAddresses.length).map (fun i =>
      (toLowerStr (tokenAddresses.getD i ""), scaled.getD i 0))
    some (allTokensWithAmounts.filter (fun p => decide (0 < p.2)))

/-- The key set of the object built by `Object.fromEntries`. -/
def recordKeys (entries : List (String × ℤ)) : List String :=
  entries.map Prod.fst

/-- Key lookup in the object built by `Object.fromEntries`: with duplicate
keys the later entry wins, hence the search from the right. -/
def recordGet (entries : List (String × ℤ)) (key : String) : Option ℤ :=
  (entries.reverse.find? (fun p => decide (p.1 = key))).map Prod.snd

/-- Claim C5 as stated is false: with the duplicate (case-folded) token
address list `['0xA', '0xa']` and amounts `['0', '2']`, the scaled amount
at index 0 is `0`, yet the lower-cased address `'0xa'` *is* a key of the
map (contributed by index 1), so the stated equivalence fails at index 0. -/
theorem C5_counterexample :
    fullAmountsScaled (fun _ => 0) ["0xA", "0xa"] ["0", "2"] = some [0, 2] ∧
    batchSwapAmountMap (fun _ => 0) ["0xA", "0xa"] ["0", "2"] = some [("0xa", 2)] ∧
    ¬ ((toLowerStr "0xA" ∈ recordKeys [("0xa", 2)]) ↔
        (0 < (([0, 2] : List ℤ).getD 0 0))) := by
  refine ⟨by decide, by decide, ?_⟩
  intro hiff
  have hk : toLowerStr "0xA" ∈ recordKeys [("0xa", 2)] := by decide
  have := hiff.mp hk
  exact absurd this (by decide)

theorem recordGet_of_unique_key (k : String) (v : ℤ) :
    ∀ es : List (String × ℤ), (k, v) ∈ es →
      (∀ p ∈ es, p.1 = k → p = (k, v)) →
      recordGet es k = some v := by
  intro es hmem huniq
  unfold recordGet
  have hmem' : (k, v) ∈ es.reverse := List.mem_reverse.mpr hmem
  have huniq' : ∀ p ∈ es.reverse, p.1 = k → p = (k, v) := fun p hp =>
    huniq p (List.mem_reverse.mp hp)
  generalize es.reverse = l at hmem' huniq'
  induction l with
  | nil => simp at hmem'
  | cons p rest ih =>
    by_cases hpk : p.1 = k
    · have hp := huniq' p (List.mem_cons_self _ _) hpk
      subst hp
      rw [List.find?_cons_of_pos _ (by simp)]
      rfl
    · rw [List.find?_cons_of_neg _ (by simpa using hpk)]
      rcases List.mem_cons.mp hmem' with h | h
      · exact absurd (congrArg Prod.fst h.symm) hpk
      · exact ih h (fun q hq => huniq' q (List.mem_cons_of_mem _ hq))

/-- Claim C5 amended: provided the lower-cased token addresses are
pairwise distinct (no duplicate keys collapse under `Object.fromEntries`),
for every index `i` the lower-cased address is a key of
`batchSwapAmountMap` exactly when the scaled amount at `i` is strictly
positive, and then it maps to that scaled amount. -/
theorem C5_batchSwapAmountMap_keys (decimalsOf : String → ℕ)
    (tokenAddresses amounts : List String) (scaled : List ℤ)
    (hs : fullAmountsScaled decimalsOf tokenAddresses amounts = some scaled)
    (hnd : (tokenAddresses.map toLowerStr).Nodup)
    (i : ℕ) (hi : i < tokenAddresses.length) :
    ∃ entries, batchSwapAmountMap decimalsOf tokenAddresses amounts = some entries ∧
      ((toLowerStr (tokenAddresses.getD i "") ∈ recordKeys entries) ↔
        0 < scaled.getD i 0) ∧
      (0 < scaled.getD i 0 →
        recordGet entries (toLowerStr (tokenAddresses.getD i "")) =
          some (scaled.getD i 0)) := by
  have hinj : ∀ j, j < tokenAddresses.length →
      toLowerStr (tokenAddresses.getD j "") = toLowerStr (tokenAddresses.getD i "") → j = i := by
    intro j hj heq
    rw [List.getD_eq_getElem _ _ hj, List.getD_eq_getElem _ _ hi] at heq
    have hmj : j < (tokenAddresses.map toLowerStr).length := by simpa using hj
    have hmi : i < (tokenAddresses.map toLowerStr).length := by simpa using hi
    exact (@List.Nodup.getElem_inj_iff _ _ hnd j hmj i hmi).mp
      (by simpa [List.getElem_map] using heq)
  unfold batchSwapAmountMap
  rw [hs]
  refine ⟨_, rfl, ?_, ?_⟩
  · constructor
    · intro hk
      simp only [recordKeys, List.mem_map, List.mem_filter, List.mem_range,
        decide_eq_true_eq] at hk
      obtain ⟨p, ⟨⟨j, hj, hpj⟩, hpos⟩, hkey⟩ := hk
      subst hpj
      have hji : j = i := hinj j hj hkey
      subst hji
      exact hpos
    · intro hpos
      simp only [recordKeys, List.mem_map, List.mem_filter, List.mem_range,
        decide_eq_true_eq]
      exact ⟨(toLowerStr (tokenAddresses.getD i ""), scaled.getD i 0),
        ⟨⟨i, hi, rfl⟩, hpos⟩, rfl⟩
  · intro hpos
    apply recordGet_of_unique_key
    · simp only [List.mem_filter, List.mem_map, List.mem_range, decide_eq_true_eq]
      exact ⟨⟨i, hi, rfl⟩, hpos⟩
    · intro p hp hpk
      simp only [List.mem_filter, List.mem_map, List.mem_range,
        decide_eq_true_eq] at hp
      obtain ⟨⟨j, hj, hpj⟩, _⟩ := hp
      subst hpj
      have hji : j = i := hinj j hj hpk
      subst hji
      rfl

/-- Witness for the amended C5 at a concrete duplicate-free state. -/
theorem C5_batchSwapAmountMap_keys_witness :
    ∃ entries, batchSwapAmountMap (fun _ => 0) ["0xa", "0xb"] ["0", "2"] = some entries ∧
      ((toLowerStr (["0xa", "0xb"].getD 1 "") ∈ recordKeys entries) ↔
        0 < (([0, 2] : List ℤ).getD 1 0)) ∧
      (0 < (([0, 2] : List ℤ).getD 1 0) →
        recordGet entries (toLowerStr (["0xa", "0xb"].getD 1 "")) =
          some (([0, 2] : List ℤ).getD 1 0)) :=
  C5_batchSwapAmountMap_keys (fun _ => 0) ["0xa", "0xb"] ["0", "2"] [0, 2]
    (by decide) (by decide) 1 (by decide)

/-! ## useInvestFormMath: maximizeAmounts and maximized (claim C9) -/

/-- The native asset of the network config: its address and the
`minTransactionBuffer` amount string that a maximized amount keeps back. -/
structure NativeAsset where
  address : String
  minTransactionBuffer : String

/-- Loop body of `maximizeAmounts` at index `i`: for the native asset the
balance minus the buffer when the balance exceeds the buffer and `'0'`
otherwise; for any other token the full balance. -/
def maximizeEntry (native : NativeAsset) (balanceFor : String → String)
    (tokenAddresses : List String) (i : ℕ) : String :=
  let addr := tokenAddresses.getD i ""
  if addr = native.address then
    let balance := balanceFor addr
    if bnGt (bnum balance) (bnum native.minTransactionBuffer) then
      bnToString (bnMinus (bnum balance) (bnum native.minTransactionBuffer))
    else "0"
  else balanceFor addr

/-- `maximizeAmounts`: writes `maximizeEntry` into `amounts[i]` for every
index of `fullAmounts`; entries of the input list beyond the token count
are untouched by the `forEach`. -/
def maximizeAmounts (native : NativeAsset) (balanceFor : String → String)
    (tokenAddresses amounts : List String) : List String :=
  (List.range tokenAddresses.length).map (maximizeEntry native balanceFor tokenAddresses) ++
    amounts.drop tokenAddresses.length

/-- The `maximized` computed field: every full amount equals the token's
full balance — for the native asset, the balance minus the buffer. -/
def maximized (native : NativeAsset) (balanceFor : String → String)
    (tokenAddresses amounts : List String) : Bool :=
  (List.range tokenAddresses.length).all (fun i =>
    let addr := tokenAddresses.getD i ""
    let amount := (fullAmounts tokenAddresses amounts).getD i ""
    if addr = native.address then
      decide (amount =
        bnToString (bnMinus (bnum (balanceFor addr)) (bnum native.minTransactionBuffer)))
    else
      decide (amount = balanceFor addr))

/-- Claim C9 fails on the code: with a native-asset balance of `0`, below
the `0.05` buffer, `maximizeAmounts` writes `'0'` but `maximized` compares
the amount against `(0 - 0.05).toString() = '-0.05'`, so `maximized` is
false right after maximizing. -/
theorem C9_counterexample :
    maximized ⟨"0xe", "0.05"⟩ (fun _ => "0") ["0xe"]
      (maximizeAmounts ⟨"0xe", "0.05"⟩ (fun _ => "0") ["0xe"] []) = false := by
  decide

theorem toDigitsCore_length_le (b : ℕ) :
    ∀ (fuel n : ℕ) (ds : List Char), ds.length ≤ (Nat.toDigitsCore b fuel n ds).length
  | 0, _, _ => le_refl _
  | fuel + 1, n, ds => by
    unfold Nat.toDigitsCore
    by_cases h : n / b = 0
    · simp [h]
    · rw [if_neg h]
      calc ds.length ≤ (Nat.digitChar (n % b) :: ds).length := by simp
        _ ≤ _ := toDigitsCore_length_le b fuel (n / b) _

theorem toDigits_ne_nil (b n : ℕ) : Nat.toDigits b n ≠ [] := by
  show Nat.toDigitsCore b (n + 1) n [] ≠ []
  unfold Nat.toDigitsCore
  by_cases h : n / b = 0
  · simp [h]
  · rw [if_neg h]
    intro hcontra
    have hle := toDigitsCore_length_le b n (n / b) [Nat.digitChar (n % b)]
    rw [hcontra] at hle
    simp at hle

theorem bnToString_some_ne_empty (p : ℤ × ℕ) : bnToString (some p) ≠ "" := by
  obtain ⟨m, e⟩ := p
  have hds : Nat.toDigits 10 m.natAbs ≠ [] := toDigits_ne_nil 10 m.natAbs
  have hlen : 0 < (Nat.toDigits 10 m.natAbs).length :=
    List.length_pos.mpr hds
  have h1 : ("." : String).length = 1 := rfl
  have h0 : ("" : String).length = 0 := rfl
  intro hcontra
  have hl := congrArg String.length hcontra
  simp only [bnToString] at hl
  split at hl
  · simp only [String.length_append, String.length_mk, h0] at hl
    omega
  · simp only [String.length_append, String.length_mk, h0, h1] at hl
    omega

theorem stripZeros_zero : ∀ e : ℕ, stripZeros 0 e = (0, 0)
  | 0 => rfl
  | e + 1 => by
    unfold stripZeros
    rw [if_pos (by decide)]
    rw [show ((0 : ℤ) / 10) = 0 from by decide]
    exact stripZeros_zero e

theorem bnMinus_eq_zero_pair (m1 : ℤ) (e1 : ℕ) (m2 : ℤ) (e2 : ℕ)
    (h1 : bnGt (some (m1, e1)) (some (m2, e2)) = false)
    (h2 : bnGt (some (m2, e2)) (some (m1, e1)) = false) :
    bnMinus (some (m1, e1)) (some (m2, e2)) = some (0, 0) := by
  simp only [bnGt, decide_eq_false_iff_not, not_lt] at h1 h2
  have heq : m1 * 10 ^ e2 = m2 * 10 ^ e1 := le_antisymm h1 h2
  show some (stripZeros (m1 * 10 ^ e2 - m2 * 10 ^ e1) (e1 + e2)) = some (0, 0)
  rw [heq, sub_self, stripZeros_zero]

/-- Claim C9 amended: after `maximizeAmounts`, `maximized` is true
provided the buffer string parses, every native-asset balance parses and
is at least the buffer, and every other token's balance string is
non-empty (the counterexample: a native balance strictly below the buffer
makes `maximizeAmounts` write `'0'` while `maximized` expects the negative
difference). -/
theorem C9_maximize_maximized (native : NativeAsset) (balanceFor : String → String)
    (tokenAddresses amounts : List String)
    (hbuf : bnum native.minTransactionBuffer ≠ none)
    (hbal : ∀ i, i < tokenAddresses.length →
      (tokenAddresses.getD i "" = native.address →
        bnum (balanceFor (tokenAddresses.getD i "")) ≠ none ∧
        bnGt (bnum native.minTransactionBuffer)
          (bnum (balanceFor (tokenAddresses.getD i ""))) = false) ∧
      (tokenAddresses.getD i "" ≠ native.address →
        balanceFor (tokenAddresses.getD i "") ≠ "")) :
    maximized native balanceFor tokenAddresses
      (maximizeAmounts native balanceFor tokenAddresses amounts) = true := by
  unfold maximized
  rw [List.all_eq_true]
  intro i hmem
  rw [List.mem_range] at hmem
  have hget : (maximizeAmounts native balanceFor tokenAddresses amounts).get? i =
      some (maximizeEntry native balanceFor tokenAddresses i) := by
    unfold maximizeAmounts
    rw [List.get?_eq_getElem?, List.getElem?_append_left (by simpa using hmem)]
    simp [List.getElem?_map, List.getElem?_range, hmem]
  have hfa : (fullAmounts tokenAddresses
      (maximizeAmounts native balanceFor tokenAddresses amounts)).getD i "" =
      (if maximizeEntry native balanceFor tokenAddresses i = "" then "0"
       else maximizeEntry native balanceFor tokenAddresses i) := by
    have hg := fullAmounts_get tokenAddresses
      (maximizeAmounts native balanceFor tokenAddresses amounts) i hmem
    rw [hget] at hg
    rw [List.getD_eq_getElem?_getD, ← List.get?_eq_getElem?, hg]
    rfl
  show (if tokenAddresses.getD i "" = native.address then _ else _) = true
  by_cases haddr : tokenAddresses.getD i "" = native.address
  · rw [if_pos haddr]
    rw [decide_eq_true_eq, hfa]
    obtain ⟨hbb, hge⟩ := (hbal i hmem).1 haddr
    obtain ⟨pb, hpb⟩ := Option.ne_none_iff_exists.mp hbb
    obtain ⟨pt, hpt⟩ := Option.ne_none_iff_exists.mp hbuf
    obtain ⟨mb, eb⟩ := pb
    obtain ⟨mt, et⟩ := pt
    cases hgt : bnGt (bnum (balanceFor (tokenAddresses.getD i "")))
        (bnum native.minTransactionBuffer) with
    | true =>
      have hentry : maximizeEntry native balanceFor tokenAddresses i =
          bnToString (bnMinus (bnum (balanceFor (tokenAddresses.getD i "")))
            (bnum native.minTransactionBuffer)) := by
        unfold maximizeEntry
        rw [if_pos haddr, if_pos hgt]
      rw [hentry, if_neg (by rw [← hpb, ← hpt]; exact bnToString_some_ne_empty _)]
    | false =>
      have hentry : maximizeEntry native balanceFor tokenAddresses i = "0" := by
        unfold maximizeEntry
        rw [if_pos haddr, if_neg (by simp only [hgt]; decide)]
      rw [hentry, if_neg (by decide), ← hpb, ← hpt]
      rw [bnMinus_eq_zero_pair mb eb mt et (by rw [hpb, hpt]; exact hgt)
        (by rw [hpb, hpt]; exact hge)]
      decide
  · rw [if_neg haddr]
    rw [decide_eq_true_eq, hfa]
    have hne := (hbal i hmem).2 haddr
    unfold maximizeEntry
    rw [if_neg haddr]
    rw [if_neg hne]

/-- Witness for the amended C9: a native token with balance above the
buffer next to an ordinary token. -/
theorem C9_maximize_maximized_witness :
    maximized ⟨"0xe", "0.05"⟩ (fun _ => "1") ["0xe", "0xb"]
      (maximizeAmounts ⟨"0xe", "0.05"⟩ (fun _ => "1") ["0xe", "0xb"] []) = true :=
  C9_maximize_maximized ⟨"0xe", "0.05"⟩ (fun _ => "1") ["0xe", "0xb"] [] (by decide)
    (fun i hi => by
      match i, hi with
      | 0, _ => exact ⟨fun _ => ⟨by decide, by decide⟩, fun hc => absurd rfl hc⟩
      | 1, _ => exact ⟨fun hc => absurd hc (by decide), fun _ => by decide⟩
      | n + 2, h => exact absurd h (by simp only [List.length_cons, List.length_nil]; omega))
